import Mathlib

/-!
# DeckSaves — verification of the versioned save-sync core

A shallow embedding of the versioned sync engine of the DeckSaves
repository (Rust), covering:

* `src/core/src/versioning.rs` — the version manager: `add_version`,
  `remove_version`, `cleanup_old_versions`, auto-pin, `generate_version_id`;
* `src/core/src/versioned_sync.rs` — `merge_manifests`,
  `sync_file_to_storage_with_progress`, `download_version`;
* `src/core/src/storage/providers.rs` — `download_manifest` for the S3 and
  local-filesystem backends;
* `src/core/src/lib.rs` — `determine_sync_action` of the non-versioned
  compare engine.

Modelling conventions:

* `chrono::DateTime<Utc>` instants are `Int` nanoseconds since the Unix
  epoch; chrono orders instants by this value, so `<`/`≤` on `Int`
  coincide with the source's comparisons.
* Calendar formatting (`timestamp.format("%Y%m%d_%H%M%S_%f")`) is modelled
  through `UtcTimestamp` (broken-down UTC fields) and `utcOfInstant`, the
  standard proleptic-Gregorian civil-from-days conversion.
* `HashMap<String, _>` is an association list `List (String × _)`; the
  source's single-entry update (`entry().or_insert_with` / `get_mut`)
  becomes `updateFile`, lookup becomes `lookupFile`.  HashMap key
  uniqueness is carried as a `Nodup` hypothesis where a claim needs it.
* File contents are `List Nat` (bytes); SHA-256 itself is not modelled:
  operations that consume a hash take the hex digest (a `String`) or a
  hash function as an explicit argument, exactly as the digest flows
  through the source after `calculate_hash`.
* Fallible Rust functions (`Result<T>`) become `Except String T`; a
  function taking `&mut self` returns the updated manifest, and a
  failure return (`Except.error`) models the source paths that return
  `Err` before mutating the manifest.
* `Vec::sort_by(|a, b| b.timestamp.cmp(&a.timestamp))` (a stable sort) is
  `List.insertionSort` (also stable) with the matching comparator: a
  stable sort's output is uniquely determined by the comparator and the
  input order, so the two algorithms compute the same list.
-/

namespace DeckSaves

/-- Nanoseconds per second (chrono sub-second resolution). -/
def nsPerSec : Int := 1000000000

/-- Nanoseconds per day, used by `chrono::Duration::days`. -/
def nsPerDay : Int := 86400 * 1000000000

/-- `AutoPinStrategy` from `versioning.rs`. -/
inductive AutoPinStrategy where
  | None
  | Daily
  | Weekly
  | Monthly
  | OnMajorChanges
  deriving DecidableEq, Repr

/-- `FileVersion` from `versioning.rs`: one snapshot of one file.
`timestamp` is the `DateTime<Utc>` instant as nanoseconds since epoch. -/
structure FileVersion where
  version_id : String
  timestamp : Int
  size : Nat
  hash : String
  storage_metadata : List (String × String)
  description : Option String
  is_pinned : Bool
  deriving DecidableEq, Repr

/-- `FileVersionManifest` from `versioning.rs`: all versions of one file. -/
structure FileVersionManifest where
  file_path : String
  versions : List FileVersion
  current_version : Option String
  max_versions : Option Nat
  deriving DecidableEq, Repr

/-- `GameVersionManifest` from `versioning.rs`; `files` is the
`HashMap<String, FileVersionManifest>` as an association list. -/
structure GameVersionManifest where
  game_name : String
  manifest_version : Nat
  last_updated : Int
  files : List (String × FileVersionManifest)
  metadata : List (String × String)
  deriving DecidableEq, Repr

/-- `VersionConfig` from `versioning.rs`. -/
structure VersionConfig where
  max_versions_per_file : Nat
  max_version_age_days : Nat
  keep_pinned_versions : Bool
  auto_pin_strategy : AutoPinStrategy
  deriving DecidableEq, Repr

/-- Association-list lookup, mirroring `HashMap::get` on `files`. -/
def lookupFile (files : List (String × FileVersionManifest)) (fp : String) :
    Option FileVersionManifest :=
  (files.find? (fun e => e.1 == fp)).map (·.2)

/-- Association-list update, mirroring `HashMap` in-place update of one
entry (`entry().or_insert_with` followed by mutation, or `get_mut`):
replaces the entry for `fp` if present, appends it otherwise. -/
def updateFile : List (String × FileVersionManifest) → String →
    FileVersionManifest → List (String × FileVersionManifest)
  | [], fp, fm => [(fp, fm)]
  | e :: rest, fp, fm =>
    if e.1 == fp then (fp, fm) :: rest else e :: updateFile rest fp fm

/-- Comparator of `sort_by(|a, b| b.timestamp.cmp(&a.timestamp))`
(newest first).  `Vec::sort_by` is a stable sort; we realise it as
`List.insertionSort`, which is also stable, and a stable sort's output is
uniquely determined by the comparator and the input order, so the two
compute the same list. -/
def tsDesc (a b : FileVersion) : Prop := b.timestamp ≤ a.timestamp

/-- Comparator of `sort_by(|a, b| a.timestamp.cmp(&b.timestamp))`
(oldest first, used by `merge_manifests`); stable, as for `tsDesc`. -/
def tsAsc (a b : FileVersion) : Prop := a.timestamp ≤ b.timestamp

instance : DecidableRel tsDesc := fun _ b => Int.decLe b.timestamp _

instance : DecidableRel tsAsc := fun a _ => Int.decLe a.timestamp _

instance : IsTotal FileVersion tsDesc := ⟨fun _ b => Int.le_total b.timestamp _⟩

instance : IsTotal FileVersion tsAsc := ⟨fun a _ => Int.le_total a.timestamp _⟩

instance : IsTrans FileVersion tsDesc := ⟨fun _ _ _ hab hbc => le_trans hbc hab⟩

instance : IsTrans FileVersion tsAsc := ⟨fun _ _ _ hab hbc => le_trans hab hbc⟩

/-- The partition loop of `cleanup_old_versions` (`versioning.rs:288-302`):
one pass over `versions`, keeping the source's redundant condition
`version.is_pinned || (keep_pinned_versions && version.is_pinned)` for the
pinned bucket and `version.timestamp > cutoff_date` for the unpinned one;
everything else is dropped. Returns `(pinned, unpinned)`. -/
def cleanupPartition (keepPinned : Bool) (cutoff : Int) :
    List FileVersion → List FileVersion × List FileVersion
  | [] => ([], [])
  | v :: rest =>
    let (p, u) := cleanupPartition keepPinned cutoff rest
    if v.is_pinned || (keepPinned && v.is_pinned) then (v :: p, u)
    else if cutoff < v.timestamp then (p, v :: u)
    else (p, u)

/-- `cleanup_old_versions` (`versioning.rs:280-314`) on a single file
manifest: partition into pinned / fresh-unpinned, sort the unpinned newest
first and truncate to `max_versions_per_file`, then recombine and sort
newest first.  `now` is `Utc::now()`. -/
def cleanup_old_versions (cfg : VersionConfig) (now : Int)
    (fm : FileVersionManifest) : FileVersionManifest :=
  let cutoff := now - (cfg.max_version_age_days : Int) * nsPerDay
  let (pinned, unpinned) := cleanupPartition cfg.keep_pinned_versions cutoff fm.versions
  let unpinnedKept := (unpinned.insertionSort tsDesc).take cfg.max_versions_per_file
  { fm with versions := (pinned ++ unpinnedKept).insertionSort tsDesc }

/-- Broken-down UTC timestamp, the view `chrono`'s formatter works on. -/
structure UtcTimestamp where
  year : Int
  month : Nat
  day : Nat
  hour : Nat
  minute : Nat
  second : Nat
  nanosecond : Nat
  deriving DecidableEq, Repr

/-- Civil date from days since the Unix epoch (proleptic Gregorian),
the conversion underlying chrono's date accessors. -/
def civilFromDays (days : Int) : Int × Nat × Nat :=
  let z := days + 719468
  let era := z.ediv 146097
  let doe := (z - era * 146097).toNat
  let yoe := (doe - doe / 1460 + doe / 36524 - doe / 146096) / 365
  let doy := doe - (365 * yoe + yoe / 4 - yoe / 100)
  let mp := (5 * doy + 2) / 153
  let d := doy - (153 * mp + 2) / 5 + 1
  let m := if mp < 10 then mp + 3 else mp - 9
  let y := (yoe : Int) + era * 400 + (if m ≤ 2 then 1 else 0)
  (y, m, d)

/-- Day index (days since epoch) of an instant, chrono's `date_naive`. -/
def dayOfInstant (t : Int) : Int := t.ediv nsPerDay

/-- `weekday().num_days_from_monday()` of an instant:
1970-01-01 was a Thursday, 3 days after Monday. -/
def daysFromMonday (t : Int) : Int := (dayOfInstant t + 3).emod 7

/-- Broken-down UTC form of an instant. -/
def utcOfInstant (t : Int) : UtcTimestamp :=
  let (y, m, d) := civilFromDays (dayOfInstant t)
  let secOfDay := ((t.ediv nsPerSec).emod 86400).toNat
  { year := y, month := m, day := d,
    hour := secOfDay / 3600, minute := secOfDay / 60 % 60,
    second := secOfDay % 60,
    nanosecond := (t.emod nsPerSec).toNat }

/-- Zero-pad a natural number to `w` digits (chrono's fixed-width
numeric format items). -/
def padNum (w : Nat) (n : Nat) : String :=
  let s := toString n
  if s.length < w then String.mk (List.replicate (w - s.length) '0') ++ s else s

/-- `%Y`: full proleptic-Gregorian year, zero-padded to 4 digits
(negative years carry a sign; no claim exercises them). -/
def formatYear (y : Int) : String :=
  if y < 0 then "-" ++ padNum 4 y.natAbs else padNum 4 y.toNat

/-- `timestamp.format("%Y%m%d_%H%M%S_%f")` — chrono renders `%f` as the
nanoseconds since the last whole second, zero-padded to 9 digits. -/
def formatTimestampCode (ts : UtcTimestamp) : String :=
  formatYear ts.year ++ padNum 2 ts.month ++ padNum 2 ts.day ++ "_" ++
    padNum 2 ts.hour ++ padNum 2 ts.minute ++ padNum 2 ts.second ++ "_" ++
    padNum 9 ts.nanosecond

/-- `generate_version_id` (`versioning.rs:388-390`):
`format!("{}_{}", timestamp.format("%Y%m%d_%H%M%S_%f"), &hash[..8])`. -/
def generate_version_id (ts : UtcTimestamp) (hash : String) : String :=
  formatTimestampCode ts ++ "_" ++ hash.take 8

/-- `get_version` (`versioning.rs:209-213`). -/
def get_version (m : GameVersionManifest) (fp versionId : String) :
    Option FileVersion :=
  (lookupFile m.files fp).bind
    (fun fm => fm.versions.find? (fun v => v.version_id == versionId))

/-- `get_current_version` (`versioning.rs:216-220`). -/
def get_current_version (m : GameVersionManifest) (fp : String) :
    Option FileVersion :=
  (lookupFile m.files fp).bind
    (fun fm => fm.current_version.bind (fun id => get_version m fp id))

/-- `has_version_today` (`versioning.rs:348-356`): some version shares
`now`'s calendar day. -/
def has_version_today (m : GameVersionManifest) (fp : String) (now : Int) : Bool :=
  match lookupFile m.files fp with
  | some fm => fm.versions.any (fun v => dayOfInstant v.timestamp == dayOfInstant now)
  | none => false

/-- `has_version_this_week` (`versioning.rs:358-367`): some version falls
on or after the Monday of `now`'s ISO week. -/
def has_version_this_week (m : GameVersionManifest) (fp : String) (now : Int) : Bool :=
  match lookupFile m.files fp with
  | some fm =>
    let weekStart := dayOfInstant now - daysFromMonday now
    fm.versions.any (fun v => weekStart ≤ dayOfInstant v.timestamp)
  | none => false

/-- `has_version_this_month` (`versioning.rs:369-377`). -/
def has_version_this_month (m : GameVersionManifest) (fp : String) (now : Int) : Bool :=
  match lookupFile m.files fp with
  | some fm =>
    fm.versions.any (fun v =>
      (utcOfInstant v.timestamp).year == (utcOfInstant now).year &&
        (utcOfInstant v.timestamp).month == (utcOfInstant now).month)
  | none => false

/-- `should_auto_pin` (`versioning.rs:317-346`).  The `OnMajorChanges`
ratio test `|S - prev.size| as f64 / prev.size as f64 > 0.2` is modelled
exactly over the rationals (`5·|S - prev| > prev`), with the IEEE special
cases `x/0 = ∞ > 0.2` for `x ≠ 0` and `0/0 = NaN ≯ 0.2` spelt out. -/
def should_auto_pin (cfg : VersionConfig) (m : GameVersionManifest)
    (fp : String) (newSize : Nat) (now : Int) : Bool :=
  match cfg.auto_pin_strategy with
  | .None => false
  | .OnMajorChanges =>
    match get_current_version m fp with
    | some current =>
      if current.size = 0 then newSize ≠ 0
      else 5 * ((newSize : Int) - (current.size : Int)).natAbs > current.size
    | none => true
  | .Daily => !has_version_today m fp now
  | .Weekly => !has_version_this_week m fp now
  | .Monthly => !has_version_this_month m fp now

/-- `add_version` (`versioning.rs:139-195`), after the file read: `size`
and `hash` are the byte length and SHA-256 digest `calculate_hash`
computed from the file contents, `now` is `Utc::now()`.  Builds the new
`FileVersion`, inserts it at the head of the file's manifest (creating
the entry if absent), sets `current_version`, runs
`cleanup_old_versions`, and stamps `last_updated`. -/
def add_version (cfg : VersionConfig) (now : Int) (m : GameVersionManifest)
    (file_path : String) (size : Nat) (hash : String)
    (storage_metadata : List (String × String)) (description : Option String) :
    GameVersionManifest × FileVersion :=
  let version_id := generate_version_id (utcOfInstant now) hash
  let is_pinned := should_auto_pin cfg m file_path size now
  let version : FileVersion :=
    { version_id := version_id, timestamp := now, size := size, hash := hash,
      storage_metadata := storage_metadata, description := description,
      is_pinned := is_pinned }
  let fm0 := (lookupFile m.files file_path).getD
    { file_path := file_path, versions := [], current_version := none,
      max_versions := some cfg.max_versions_per_file }
  let fm1 := { fm0 with
    versions := version :: fm0.versions,
    current_version := some version_id }
  let fm2 := cleanup_old_versions cfg now fm1
  ({ m with files := updateFile m.files file_path fm2, last_updated := now },
   version)

/-- The find-first-and-remove step of `remove_version`
(`versioning.rs:248-257`): `position` of the first version with the given
id, paired with the list it leaves behind. -/
def removeFirst (versionId : String) :
    List FileVersion → Option (FileVersion × List FileVersion)
  | [] => none
  | v :: rest =>
    if v.version_id == versionId then some (v, rest)
    else (removeFirst versionId rest).map (fun r => (r.1, v :: r.2))

/-- `remove_version` (`versioning.rs:244-266`): fails when the file or
version is absent or the version is pinned (all before any mutation, so
a failure leaves the manifest unchanged); otherwise removes the version
and, if it was `current_version`, promotes the new head (or `none`). -/
def remove_version (m : GameVersionManifest) (fp versionId : String) :
    Except String (GameVersionManifest × FileVersion) :=
  match lookupFile m.files fp with
  | none => .error "File not found in manifest"
  | some fm =>
    match removeFirst versionId fm.versions with
    | none => .error "Version not found"
    | some (v, versions') =>
      if v.is_pinned then .error "Cannot remove pinned version"
      else
        let current' :=
          if fm.current_version == some versionId then
            versions'.head?.map (·.version_id)
          else fm.current_version
        let fm' := { fm with versions := versions', current_version := current' }
        .ok ({ m with files := updateFile m.files fp fm' }, v)

/-! ## Versioned sync engine (`versioned_sync.rs`) -/

/-- The version-union loop of `merge_manifests`
(`versioned_sync.rs:104-114`): remote versions whose `version_id` is not
yet in the accumulated list are appended, in remote order. -/
def mergeFileVersions (acc : List FileVersion) :
    List FileVersion → List FileVersion
  | [] => acc
  | rv :: rest =>
    if acc.any (fun v => v.version_id == rv.version_id) then
      mergeFileVersions acc rest
    else
      mergeFileVersions (acc ++ [rv]) rest

/-- Per-file merge of `merge_manifests` (`versioned_sync.rs:100-152`) for
a file present in both manifests: union the versions by `version_id`,
sort ascending by timestamp, then resolve `current_version` by looking
both sides' named ids up in the merged list. -/
def mergeFileInfo (l r : FileVersionManifest) : FileVersionManifest :=
  let versions := (mergeFileVersions l.versions r.versions).insertionSort tsAsc
  let localCurrent := l.current_version.bind
    (fun id => versions.find? (fun v => v.version_id == id))
  let remoteCurrent := r.current_version.bind
    (fun id => versions.find? (fun v => v.version_id == id))
  let current :=
    match localCurrent, remoteCurrent with
    | some lc, some rc =>
      if lc.timestamp < rc.timestamp then some rc.version_id
      else l.current_version
    | none, some rc => some rc.version_id
    | some _, none => l.current_version
    | none, none =>
      match versions.getLast? with
      | some latest => some latest.version_id
      | none => l.current_version
  { l with versions := versions, current_version := current }

/-- The file loop of `merge_manifests` (`versioned_sync.rs:98-161`):
files present in both are merged with `mergeFileInfo`, remote-only files
are adopted verbatim, local-only files are left alone. -/
def mergeFilesLoop (acc : List (String × FileVersionManifest)) :
    List (String × FileVersionManifest) → List (String × FileVersionManifest)
  | [] => acc
  | (fp, rfi) :: rest =>
    match lookupFile acc fp with
    | some lfi => mergeFilesLoop (updateFile acc fp (mergeFileInfo lfi rfi)) rest
    | none => mergeFilesLoop (acc ++ [(fp, rfi)]) rest

/-- `merge_manifests` (`versioned_sync.rs:86-182`): merge the remote
manifest `r` into the local one `l` and stamp `last_updated := now`.
The source's final serialize/`load_or_create` round trip re-installs the
very same manifest and is the identity here. -/
def merge_manifests (l r : GameVersionManifest) (now : Int) :
    GameVersionManifest :=
  { l with files := mergeFilesLoop l.files r.files, last_updated := now }

/-- `sync_file_to_storage_with_progress` (`versioned_sync.rs:313-479`),
with the storage backend abstracted: `localFile` is `some (size, hash)`
when the local path exists (byte length and SHA-256 of its contents),
`none` otherwise; `uploadOk` / `manifestUploadOk` are the `success` flags
the two backend calls return.  The result pairs the version manager's
manifest after the call (the source mutates it in place, so it is updated
even on a failed body upload) with either an error or
`(body uploaded, manifest uploaded)`. -/
def sync_file_to_storage (cfg : VersionConfig) (now : Int)
    (m : GameVersionManifest) (relativePath : String)
    (localFile : Option (Nat × String)) (description : Option String)
    (uploadOk manifestUploadOk : Bool) :
    GameVersionManifest × Except String (Bool × Bool) :=
  match localFile with
  | none => (m, .error "Local file does not exist")
  | some (size, hash) =>
    let res := add_version cfg now m relativePath size hash [] description
    if uploadOk then
      (res.1, .ok (true, manifestUploadOk))
    else
      (res.1, .error "Failed to upload file to storage")

/-- `download_version` (`versioned_sync.rs:482-517`): look the version up
in the manifest, fetch the body (`bodyResult` is the backend's
`download_file` outcome), verify the SHA-256 (`hashFn`) against the
manifest hash, and only then write the bytes.  `Except.ok data` means the
target file was written with `data`; any `Except.error` path writes
nothing, and the function takes the manifest immutably (`&self`), so the
manifest is unchanged in every outcome. -/
def download_version (m : GameVersionManifest) (relativePath versionId : String)
    (hashFn : List Nat → String) (bodyResult : Except String (List Nat)) :
    Except String (List Nat) :=
  match get_version m relativePath versionId with
  | none => .error "Version not found in manifest"
  | some v =>
    match bodyResult with
    | .error e => .error e
    | .ok data =>
      if hashFn data ≠ v.hash then
        .error ("File integrity check failed: expected " ++ v.hash ++
          ", got " ++ hashFn data)
      else
        .ok data

/-! ## Storage backends (`storage/providers.rs`) -/

/-- Environment an S3 `download_manifest` call runs against: the manifest
object stored under `games/<game>/manifest.json` (if any), whether the
`GetObject` request itself fails (network, permissions, …), and whether
streaming the body (`result.body.collect()`) fails. -/
structure S3Env where
  manifestObject : Option (List Nat)
  transportFailure : Bool
  bodyReadFailure : Bool
  deriving DecidableEq, Repr

/-- The `GetObject` send of `S3StorageProvider::download_manifest`
(`providers.rs:322-328`): a failing transport errors, an absent key
errors with `NoSuchKey`, otherwise the object is returned. -/
def s3Send (env : S3Env) : Except String (List Nat) :=
  if env.transportFailure then .error "dispatch failure"
  else
    match env.manifestObject with
    | some data => .ok data
    | none => .error "NoSuchKey"

/-- `S3StorageProvider::download_manifest` (`providers.rs:319-339`):
every error of the `GetObject` request — absent key and transport failure
alike — is mapped to `Ok(None)` ("manifest doesn't exist yet"); errors
while collecting the body or parsing the JSON are propagated with `?`. -/
def s3_download_manifest (env : S3Env)
    (parse : List Nat → Except String GameVersionManifest) :
    Except String (Option GameVersionManifest) :=
  match s3Send env with
  | .error _ => .ok none
  | .ok data =>
    match (if env.bodyReadFailure then Except.error "connection reset"
           else Except.ok data : Except String (List Nat)) with
    | .error e => .error e
    | .ok data' =>
      match parse data' with
      | .ok manifest => .ok (some manifest)
      | .error e => .error e

/-- Environment a local-filesystem `download_manifest` call runs against:
the manifest file's contents (if the file exists) and whether reading it
fails. -/
structure LocalEnv where
  manifestFile : Option (List Nat)
  readFailure : Bool
  deriving DecidableEq, Repr

/-- `LocalStorageProvider::download_manifest` (`providers.rs:518-528`):
an absent file is `Ok(None)` via the explicit `exists()` check; read and
parse errors on an existing file are propagated with `?`. -/
def local_download_manifest (env : LocalEnv)
    (parse : List Nat → Except String GameVersionManifest) :
    Except String (Option GameVersionManifest) :=
  match env.manifestFile with
  | none => .ok none
  | some data =>
    match (if env.readFailure then Except.error "io error"
           else Except.ok data : Except String (List Nat)) with
    | .error e => .error e
    | .ok data' =>
      match parse data' with
      | .ok manifest => .ok (some manifest)
      | .error e => .error e

/-! ## Non-versioned compare engine (`lib.rs`) -/

/-- `SyncAction` from `lib.rs`. -/
inductive SyncAction where
  | UploadToS3
  | DownloadFromS3
  | NoAction
  deriving DecidableEq, Repr

/-- `FileInfo` from `lib.rs`; `modified_time` is the `SystemTime` as
nanoseconds since the Unix epoch. -/
structure FileInfo where
  path : String
  modified_time : Nat
  size : Nat
  hash : Option String
  deriving DecidableEq, Repr

/-- `determine_sync_action` (`lib.rs:928-982`): no cloud record means
upload; otherwise the timestamp difference is taken via `duration_since`
and truncated to whole seconds by `as_secs`, a truncated difference of at
most 2 seconds is a tie broken by size (differing sizes prefer local),
and larger differences let the newer side win. -/
def determine_sync_action (localInfo : FileInfo) (cloudInfo : Option FileInfo) :
    SyncAction :=
  match cloudInfo with
  | none => .UploadToS3
  | some cloud =>
    let timeDiff :=
      (if cloud.modified_time < localInfo.modified_time then
        localInfo.modified_time - cloud.modified_time
      else
        cloud.modified_time - localInfo.modified_time) / 1000000000
    if timeDiff ≤ 2 then
      if localInfo.size ≠ cloud.size then .UploadToS3 else .NoAction
    else
      if cloud.modified_time < localInfo.modified_time then .UploadToS3
      else if localInfo.modified_time < cloud.modified_time then .DownloadFromS3
      else .NoAction

/-! ## Definitions written from the spec's words (refinement targets
only; everything above is translated from the source). -/

/-- Modelled from the spec: the claim's tie rule with `Δ = |t_local -
t_remote|` compared exactly against 2 seconds — "If `Δ ≤ 2 s`: equal
timestamps; if sizes differ, prefer local (upload), else no-op. Otherwise
the newer side wins", and upload when no remote record exists. -/
def spec_determine_sync_action (localInfo : FileInfo)
    (cloudInfo : Option FileInfo) : SyncAction :=
  match cloudInfo with
  | none => .UploadToS3
  | some cloud =>
    let delta :=
      if cloud.modified_time < localInfo.modified_time then
        localInfo.modified_time - cloud.modified_time
      else
        cloud.modified_time - localInfo.modified_time
    if delta ≤ 2 * 1000000000 then
      if localInfo.size ≠ cloud.size then .UploadToS3 else .NoAction
    else
      if cloud.modified_time < localInfo.modified_time then .UploadToS3
      else .DownloadFromS3

/-- Modelled from the spec: the claimed version-id shape
`"<YYYYMMDD_HHMMSS_micros>_<hash[0..8]>"` — date, time, then the
sub-second part rendered as microseconds (6 digits). -/
def spec_version_id_micros (ts : UtcTimestamp) (hash : String) : String :=
  formatYear ts.year ++ padNum 2 ts.month ++ padNum 2 ts.day ++ "_" ++
    padNum 2 ts.hour ++ padNum 2 ts.minute ++ padNum 2 ts.second ++ "_" ++
    padNum 6 (ts.nanosecond / 1000) ++ "_" ++ hash.take 8

/-- The amended version-id shape: identical to the spec's claim except
that the sub-second part is chrono's `%f`, the nanoseconds rendered as
9 digits. -/
def spec_version_id_nanos (ts : UtcTimestamp) (hash : String) : String :=
  formatYear ts.year ++ padNum 2 ts.month ++ padNum 2 ts.day ++ "_" ++
    padNum 2 ts.hour ++ padNum 2 ts.minute ++ padNum 2 ts.second ++ "_" ++
    padNum 9 ts.nanosecond ++ "_" ++ hash.take 8

/-! ## Invariant predicates -/

/-- The manifest invariant "`versions[0].timestamp >= versions[1].timestamp
>= …`": sorted by non-increasing timestamp, newest first. -/
def SortedDesc (l : List FileVersion) : Prop :=
  l.Pairwise (fun a b => b.timestamp ≤ a.timestamp)

/-- Sorted by non-decreasing timestamp, oldest first (the order
`merge_manifests` actually produces). -/
def SortedAsc (l : List FileVersion) : Prop :=
  l.Pairwise (fun a b => a.timestamp ≤ b.timestamp)

instance (l : List FileVersion) : Decidable (SortedDesc l) :=
  List.instDecidablePairwise l

instance (l : List FileVersion) : Decidable (SortedAsc l) :=
  List.instDecidablePairwise l

/-- The empty file manifest used as the `Option.getD` default when a
theorem projects the entry a lookup provably returns. -/
def emptyFM : FileVersionManifest :=
  { file_path := "", versions := [], current_version := none,
    max_versions := none }

/-- `impl Default for VersionConfig` (`versioning.rs:85-94`). -/
def versionConfigDefault : VersionConfig :=
  { max_versions_per_file := 10, max_version_age_days := 30,
    keep_pinned_versions := true, auto_pin_strategy := .Weekly }

/-! ### Concrete fixtures for witnesses and counterexamples -/

/-- A plain unpinned version, for fixtures. -/
def mkVersion (id : String) (ts : Int) (pinned : Bool) : FileVersion :=
  { version_id := id, timestamp := ts, size := 1, hash := "hash-" ++ id,
    storage_metadata := [], description := none, is_pinned := pinned }

/-- Fixture: the local entry for file `"f"` — versions `v2`, `v1`
(newest first), `current_version = v2`. -/
def fixLocalEntry : FileVersionManifest :=
  { file_path := "f",
    versions := [mkVersion "v2" 2000000000 false,
                 mkVersion "v1" 1000000000 false],
    current_version := some "v2", max_versions := some 10 }

/-- Fixture: the remote entry for file `"f"` — versions `v3`, `v1`
(newest first), `current_version = v3`. -/
def fixRemoteEntry : FileVersionManifest :=
  { file_path := "f",
    versions := [mkVersion "v3" 3000000000 false,
                 mkVersion "v1" 1000000000 false],
    current_version := some "v3", max_versions := some 10 }

/-- Fixture: the remote-only entry for file `"g"`. -/
def fixRemoteOnlyEntry : FileVersionManifest :=
  { file_path := "g",
    versions := [mkVersion "w1" 500000000 false],
    current_version := some "w1", max_versions := some 10 }

/-- Fixture: a local manifest with file `"f"` holding versions `v2`, `v1`
(newest first) and `current_version = v2`. -/
def fixLocalManifest : GameVersionManifest :=
  { game_name := "Demo", manifest_version := 1, last_updated := 0,
    files := [("f", fixLocalEntry)], metadata := [] }

/-- Fixture: a remote manifest with file `"f"` holding versions `v3`, `v1`
(newest first) and `current_version = v3`, plus a remote-only file `"g"`. -/
def fixRemoteManifest : GameVersionManifest :=
  { game_name := "Demo", manifest_version := 1, last_updated := 0,
    files := [("f", fixRemoteEntry), ("g", fixRemoteOnlyEntry)],
    metadata := [] }

/-- Fixture: the unpinned current version `v1` with hash `"aa"`. -/
def fixHashVersion : FileVersion :=
  { version_id := "v1", timestamp := 1000000000, size := 5,
    hash := "aa", storage_metadata := [], description := none,
    is_pinned := false }

/-- Fixture: the pinned version `p1` with hash `"bb"`. -/
def fixPinnedVersion : FileVersion :=
  { version_id := "p1", timestamp := 500000000, size := 5,
    hash := "bb", storage_metadata := [], description := none,
    is_pinned := true }

/-- Fixture: a manifest whose file `"f"` has unpinned current version
`v1` (hash `"aa"`) and pinned version `p1`. -/
def fixHashManifest : GameVersionManifest :=
  { game_name := "Demo", manifest_version := 1, last_updated := 0,
    files := [("f",
      { file_path := "f",
        versions := [fixHashVersion, fixPinnedVersion],
        current_version := some "v1", max_versions := some 10 })],
    metadata := [] }

end DeckSaves

namespace DeckSaves

/-! ## Helper lemmas -/

theorem sortedDesc_insertionSort (l : List FileVersion) :
    SortedDesc (l.insertionSort tsDesc) :=
  (List.sorted_insertionSort tsDesc l).imp (fun h => h)

theorem sortedAsc_insertionSort (l : List FileVersion) :
    SortedAsc (l.insertionSort tsAsc) :=
  (List.sorted_insertionSort tsAsc l).imp (fun h => h)

theorem lookupFile_updateFile_self (fs : List (String × FileVersionManifest))
    (fp : String) (fm : FileVersionManifest) :
    lookupFile (updateFile fs fp fm) fp = some fm := by
  induction fs with
  | nil => simp [updateFile, lookupFile]
  | cons e rest ih =>
    by_cases h : e.1 = fp
    · simp [updateFile, lookupFile, h]
    · simp only [updateFile, beq_iff_eq, if_neg h]
      simpa [lookupFile, List.find?_cons, beq_iff_eq, h] using ih

theorem lookupFile_updateFile_ne (fs : List (String × FileVersionManifest))
    (fp fp' : String) (fm : FileVersionManifest) (h : fp' ≠ fp) :
    lookupFile (updateFile fs fp' fm) fp = lookupFile fs fp := by
  induction fs with
  | nil => simp [updateFile, lookupFile, List.find?_cons, beq_iff_eq, h]
  | cons e rest ih =>
    by_cases he : e.1 = fp'
    · simp [updateFile, lookupFile, List.find?_cons, beq_iff_eq, he, h]
    · simp only [updateFile, beq_iff_eq, if_neg he]
      by_cases hef : e.1 = fp
      · simp [lookupFile, List.find?_cons, beq_iff_eq, hef]
      · simpa [lookupFile, List.find?_cons, beq_iff_eq, hef] using ih

theorem lookupFile_append_right (fs : List (String × FileVersionManifest))
    (e : String × FileVersionManifest) (fp : String)
    (h : lookupFile fs fp = none) :
    lookupFile (fs ++ [e]) fp = lookupFile [e] fp := by
  simp only [lookupFile, List.find?_append] at *
  rcases hf : fs.find? (fun x => x.1 == fp) with _ | v
  · simp [hf]
  · simp [hf] at h

theorem cleanupPartition_eq (kp : Bool) (cutoff : Int) (l : List FileVersion) :
    cleanupPartition kp cutoff l =
      (l.filter (·.is_pinned),
       l.filter (fun v => !v.is_pinned && decide (cutoff < v.timestamp))) := by
  induction l with
  | nil => rfl
  | cons v rest ih =>
    simp only [cleanupPartition, ih]
    by_cases hp : v.is_pinned
    · simp [hp, List.filter_cons]
    · by_cases ht : cutoff < v.timestamp <;>
        simp [hp, ht, List.filter_cons]

theorem cleanup_versions_eq (cfg : VersionConfig) (now : Int)
    (fm : FileVersionManifest) :
    (cleanup_old_versions cfg now fm).versions =
      ((fm.versions.filter (·.is_pinned) ++
        ((fm.versions.filter (fun v => !v.is_pinned &&
            decide (now - (cfg.max_version_age_days : Int) * nsPerDay
              < v.timestamp))).insertionSort tsDesc).take
          cfg.max_versions_per_file).insertionSort tsDesc) := by
  simp [cleanup_old_versions, cleanupPartition_eq]

theorem cleanup_fields (cfg : VersionConfig) (now : Int)
    (fm : FileVersionManifest) :
    (cleanup_old_versions cfg now fm).file_path = fm.file_path ∧
    (cleanup_old_versions cfg now fm).current_version = fm.current_version ∧
    (cleanup_old_versions cfg now fm).max_versions = fm.max_versions := by
  simp [cleanup_old_versions]

theorem cleanup_countP_le (cfg : VersionConfig) (now : Int)
    (fm : FileVersionManifest) :
    (cleanup_old_versions cfg now fm).versions.countP (fun v => !v.is_pinned) ≤
      cfg.max_versions_per_file := by
  rw [cleanup_versions_eq]
  rw [(List.perm_insertionSort tsDesc _).countP_eq]
  rw [List.countP_append]
  have h1 : (fm.versions.filter (·.is_pinned)).countP (fun v => !v.is_pinned) = 0 := by
    rw [List.countP_eq_zero]
    intro a ha
    have := List.of_mem_filter ha
    simp_all
  have h2 : (((fm.versions.filter (fun v => !v.is_pinned &&
      decide (now - (cfg.max_version_age_days : Int) * nsPerDay
        < v.timestamp))).insertionSort tsDesc).take
        cfg.max_versions_per_file).countP (fun v => !v.is_pinned) ≤
      cfg.max_versions_per_file := by
    calc _ ≤ _ := List.countP_le_length _
      _ ≤ _ := List.length_take_le _ _
  omega

theorem cleanup_age (cfg : VersionConfig) (now : Int)
    (fm : FileVersionManifest) :
    ∀ v ∈ (cleanup_old_versions cfg now fm).versions, v.is_pinned = false →
      now - v.timestamp < (cfg.max_version_age_days : Int) * nsPerDay := by
  intro v hv hp
  rw [cleanup_versions_eq] at hv
  rw [List.mem_insertionSort, List.mem_append] at hv
  rcases hv with hv | hv
  · have := List.of_mem_filter hv
    simp_all
  · have hv' := List.mem_of_mem_take hv
    rw [List.mem_insertionSort] at hv'
    have := List.of_mem_filter hv'
    simp only [Bool.and_eq_true, decide_eq_true_eq] at this
    omega

theorem cleanup_pinned_mem (cfg : VersionConfig) (now : Int)
    (fm : FileVersionManifest) :
    ∀ v ∈ fm.versions, v.is_pinned = true →
      v ∈ (cleanup_old_versions cfg now fm).versions := by
  intro v hv hp
  rw [cleanup_versions_eq, List.mem_insertionSort, List.mem_append]
  left
  exact List.mem_filter.mpr ⟨hv, by simp [hp]⟩

theorem cleanup_unpinned_perm (cfg : VersionConfig) (now : Int)
    (fm : FileVersionManifest) :
    List.Perm
      ((cleanup_old_versions cfg now fm).versions.filter (fun v => !v.is_pinned))
      (((fm.versions.filter (fun v => !v.is_pinned &&
          decide (now - (cfg.max_version_age_days : Int) * nsPerDay
            < v.timestamp))).insertionSort tsDesc).take
        cfg.max_versions_per_file) := by
  rw [cleanup_versions_eq]
  have hperm := (List.perm_insertionSort tsDesc
    (fm.versions.filter (·.is_pinned) ++
      ((fm.versions.filter (fun v => !v.is_pinned &&
          decide (now - (cfg.max_version_age_days : Int) * nsPerDay
            < v.timestamp))).insertionSort tsDesc).take
        cfg.max_versions_per_file)).filter (fun v => !v.is_pinned)
  refine hperm.trans ?_
  rw [List.filter_append]
  have h1 : (fm.versions.filter (·.is_pinned)).filter (fun v => !v.is_pinned) = [] := by
    rw [List.filter_eq_nil_iff]
    intro a ha
    have := List.of_mem_filter ha
    simp_all
  rw [h1, List.nil_append]
  have h2 : (((fm.versions.filter (fun v => !v.is_pinned &&
      decide (now - (cfg.max_version_age_days : Int) * nsPerDay
        < v.timestamp))).insertionSort tsDesc).take
        cfg.max_versions_per_file).filter (fun v => !v.is_pinned) =
      ((fm.versions.filter (fun v => !v.is_pinned &&
        decide (now - (cfg.max_version_age_days : Int) * nsPerDay
          < v.timestamp))).insertionSort tsDesc).take
        cfg.max_versions_per_file := by
    rw [List.filter_eq_self]
    intro a ha
    have ha' := List.mem_of_mem_take ha
    rw [List.mem_insertionSort] at ha'
    have := List.of_mem_filter ha'
    simp_all
  rw [h2]

theorem sortedAsc_getLast_max (l : List FileVersion) (hs : SortedAsc l)
    (m : FileVersion) (hm : l.getLast? = some m) :
    ∀ v ∈ l, v.timestamp ≤ m.timestamp := by
  intro v hv
  rw [← List.head?_reverse] at hm
  have hrev : l.reverse.Pairwise (fun a b => b.timestamp ≤ a.timestamp) :=
    List.pairwise_reverse.mpr hs
  rcases hr : l.reverse with _ | ⟨a, rest⟩
  · simp [hr] at hm
  · rw [hr] at hm
    simp only [List.head?_cons, Option.some.injEq] at hm
    subst hm
    have hv' : v ∈ l.reverse := List.mem_reverse.mpr hv
    rw [hr] at hv'
    rw [hr] at hrev
    rcases List.mem_cons.mp hv' with h | h
    · subst h; exact le_refl _
    · exact (List.pairwise_cons.mp hrev).1 v h

theorem mergeFileVersions_mem (rs acc : List FileVersion) :
    ∀ v ∈ mergeFileVersions acc rs, v ∈ acc ∨ v ∈ rs := by
  induction rs generalizing acc with
  | nil => intro v hv; exact Or.inl hv
  | cons rv rest ih =>
    intro v hv
    simp only [mergeFileVersions] at hv
    split at hv
    · rcases ih acc v hv with h | h
      · exact Or.inl h
      · exact Or.inr (List.mem_cons_of_mem _ h)
    · rcases ih (acc ++ [rv]) v hv with h | h
      · rcases List.mem_append.mp h with h | h
        · exact Or.inl h
        · simp only [List.mem_singleton] at h
          subst h; exact Or.inr (List.mem_cons_self _ _)
      · exact Or.inr (List.mem_cons_of_mem _ h)

theorem mergeFileVersions_mem_ids (rs acc : List FileVersion) (i : String) :
    i ∈ (mergeFileVersions acc rs).map (·.version_id) ↔
      i ∈ acc.map (·.version_id) ∨ i ∈ rs.map (·.version_id) := by
  induction rs generalizing acc with
  | nil => simp [mergeFileVersions]
  | cons rv rest ih =>
    simp only [mergeFileVersions]
    split
    · rename_i hany
      rw [ih]
      simp only [List.map_cons, List.mem_cons]
      rw [List.any_eq_true] at hany
      obtain ⟨u, hu, hui⟩ := hany
      rw [beq_iff_eq] at hui
      constructor
      · rintro (h | h)
        · exact Or.inl h
        · exact Or.inr (Or.inr h)
      · rintro (h | h | h)
        · exact Or.inl h
        · subst h
          exact Or.inl (by
            rw [← hui]
            exact List.mem_map_of_mem (·.version_id) hu)
        · exact Or.inr h
    · rw [ih]
      simp only [List.map_append, List.map_cons, List.map_nil, List.mem_append,
        List.mem_singleton, List.mem_cons]
      tauto

theorem mergeFileVersions_nodup_ids (rs acc : List FileVersion)
    (h : (acc.map (·.version_id)).Nodup) :
    ((mergeFileVersions acc rs).map (·.version_id)).Nodup := by
  induction rs generalizing acc with
  | nil => exact h
  | cons rv rest ih =>
    simp only [mergeFileVersions]
    split
    · exact ih acc h
    · rename_i hany
      refine ih (acc ++ [rv]) ?_
      rw [List.map_append, List.map_cons, List.map_nil]
      rw [List.nodup_append]
      refine ⟨h, List.nodup_singleton _, ?_⟩
      intro i hi hi'
      simp only [List.mem_singleton] at hi'
      subst hi'
      obtain ⟨u, hu, hui⟩ := List.mem_map.mp hi
      exact hany (List.any_eq_true.mpr ⟨u, hu, by rw [beq_iff_eq]; exact hui⟩)

theorem removeFirst_of_decomp (vid : String) (pre post : List FileVersion)
    (v : FileVersion) (hpre : ∀ u ∈ pre, u.version_id ≠ vid)
    (hv : v.version_id = vid) :
    removeFirst vid (pre ++ v :: post) = some (v, pre ++ post) := by
  induction pre with
  | nil => simp [removeFirst, hv]
  | cons u rest ih =>
    have hu : u.version_id ≠ vid := hpre u (List.mem_cons_self _ _)
    simp only [List.cons_append, removeFirst, beq_iff_eq, if_neg hu,
      List.append_eq]
    rw [ih (fun u' hu' => hpre u' (List.mem_cons_of_mem _ hu'))]
    rfl

theorem removeFirst_eq_none (vid : String) (l : List FileVersion)
    (h : ∀ u ∈ l, u.version_id ≠ vid) :
    removeFirst vid l = none := by
  induction l with
  | nil => rfl
  | cons u rest ih =>
    simp only [removeFirst, beq_iff_eq, if_neg (h u (List.mem_cons_self _ _))]
    rw [ih (fun u' hu' => h u' (List.mem_cons_of_mem _ hu'))]
    rfl

theorem lookupFile_eq_none_iff (fs : List (String × FileVersionManifest))
    (fp : String) :
    lookupFile fs fp = none ↔ fp ∉ fs.map Prod.fst := by
  constructor
  · intro h hmem
    obtain ⟨e, he, hfp⟩ := List.mem_map.mp hmem
    rcases hf : fs.find? (fun x => x.1 == fp) with _ | x
    · have hne := List.find?_eq_none.mp hf e he
      rw [beq_iff_eq] at hne
      exact hne hfp
    · rw [lookupFile, hf] at h
      simp at h
  · intro h
    rw [lookupFile]
    rcases hf : fs.find? (fun x => x.1 == fp) with _ | x
    · simp [hf]
    · exfalso
      have hx := List.find?_some hf
      rw [beq_iff_eq] at hx
      exact h (List.mem_map.mpr ⟨x, List.mem_of_find?_eq_some hf, hx⟩)

theorem lookupFile_append_singleton_ne (fs : List (String × FileVersionManifest))
    (e : String × FileVersionManifest) (fp : String) (h : e.1 ≠ fp) :
    lookupFile (fs ++ [e]) fp = lookupFile fs fp := by
  simp only [lookupFile, List.find?_append]
  have : List.find? (fun x => x.1 == fp) [e] = none := by
    simp [List.find?_cons, beq_iff_eq, h]
  rw [this, Option.or_none]

theorem mergeFilesLoop_lookup_notmem (rfiles acc : List (String × FileVersionManifest))
    (fp : String) (h : fp ∉ rfiles.map Prod.fst) :
    lookupFile (mergeFilesLoop acc rfiles) fp = lookupFile acc fp := by
  induction rfiles generalizing acc with
  | nil => rfl
  | cons e rest ih =>
    obtain ⟨fp', rfi⟩ := e
    simp only [List.map_cons, List.mem_cons, not_or] at h
    obtain ⟨hne, hrest⟩ := h
    simp only [mergeFilesLoop]
    rcases hl : lookupFile acc fp' with _ | lfi
    · rw [ih _ hrest]
      exact lookupFile_append_singleton_ne _ _ _ (fun he => hne he.symm)
    · rw [ih _ hrest]
      exact lookupFile_updateFile_ne _ _ _ _ (fun he => hne he.symm)

theorem mergeFilesLoop_lookup (rfiles acc : List (String × FileVersionManifest))
    (fp : String) (hnd : (rfiles.map Prod.fst).Nodup) :
    lookupFile (mergeFilesLoop acc rfiles) fp =
      match lookupFile rfiles fp, lookupFile acc fp with
      | some rfi, some lfi => some (mergeFileInfo lfi rfi)
      | some rfi, none => some rfi
      | none, _ => lookupFile acc fp := by
  induction rfiles generalizing acc with
  | nil => rfl
  | cons e rest ih =>
    obtain ⟨fp', rfi⟩ := e
    simp only [List.map_cons, List.nodup_cons] at hnd
    obtain ⟨hnotin, hndrest⟩ := hnd
    by_cases hfp : fp' = fp
    · subst hfp
      have hre : lookupFile ((fp', rfi) :: rest) fp' = some rfi := by
        simp [lookupFile, List.find?_cons]
      rw [hre]
      simp only [mergeFilesLoop]
      rcases hl : lookupFile acc fp' with _ | lfi
      · rw [mergeFilesLoop_lookup_notmem _ _ _ hnotin]
        show lookupFile (acc ++ [(fp', rfi)]) fp' = some rfi
        rw [lookupFile_append_right _ _ _ hl]
        simp [lookupFile, List.find?_cons]
      · rw [mergeFilesLoop_lookup_notmem _ _ _ hnotin]
        show lookupFile (updateFile acc fp' (mergeFileInfo lfi rfi)) fp' =
          some (mergeFileInfo lfi rfi)
        exact lookupFile_updateFile_self _ _ _
    · have hre : lookupFile ((fp', rfi) :: rest) fp = lookupFile rest fp := by
        simp [lookupFile, List.find?_cons, beq_iff_eq, hfp]
      rw [hre]
      simp only [mergeFilesLoop]
      rcases hl : lookupFile acc fp' with _ | lfi
      · rw [ih _ hndrest]
        rw [lookupFile_append_singleton_ne _ _ _ hfp]
      · rw [ih _ hndrest]
        rw [lookupFile_updateFile_ne _ _ _ _ hfp]

theorem removeFirst_some_decomp (vid : String) (l : List FileVersion)
    (v : FileVersion) (l' : List FileVersion)
    (h : removeFirst vid l = some (v, l')) :
    ∃ pre post, l = pre ++ v :: post ∧ l' = pre ++ post ∧
      (∀ u ∈ pre, u.version_id ≠ vid) ∧ v.version_id = vid := by
  induction l generalizing l' with
  | nil => simp [removeFirst] at h
  | cons u rest ih =>
    rw [removeFirst] at h
    by_cases hu : u.version_id = vid
    · rw [if_pos (by rw [beq_iff_eq]; exact hu)] at h
      obtain ⟨rfl, rfl⟩ : u = v ∧ rest = l' := by
        constructor <;> [exact congrArg Prod.fst (Option.some.inj h);
          exact congrArg Prod.snd (Option.some.inj h)]
      exact ⟨[], rest, rfl, rfl, by simp, hu⟩
    · rw [if_neg (by rw [beq_iff_eq]; exact hu)] at h
      rcases hr : removeFirst vid rest with _ | p
      · rw [hr] at h
        simp at h
      · rw [hr] at h
        obtain ⟨v0, l0⟩ := p
        simp at h
        obtain ⟨rfl, rfl⟩ := h
        obtain ⟨pre, post, hdec, hrem, hpre, hvid⟩ := ih l0 hr
        refine ⟨u :: pre, post, by rw [hdec, List.cons_append],
          by rw [hrem, List.cons_append], ?_, hvid⟩
        intro u' hu'
        rcases List.mem_cons.mp hu' with rfl | hmem
        · exact hu
        · exact hpre u' hmem

theorem add_version_result_file_some (cfg : VersionConfig) (now : Int)
    (m : GameVersionManifest) (fp : String) (sz : Nat) (h : String)
    (md : List (String × String)) (desc : Option String)
    (fm0 : FileVersionManifest) (h0 : lookupFile m.files fp = some fm0) :
    lookupFile (add_version cfg now m fp sz h md desc).1.files fp =
      some (cleanup_old_versions cfg now ({ fm0 with versions := (add_version cfg now m fp sz h md desc).2 :: fm0.versions, current_version := some (add_version cfg now m fp sz h md desc).2.version_id })) := by
  simp only [add_version, h0, Option.getD_some]
  exact lookupFile_updateFile_self _ _ _

theorem add_version_result_file_none (cfg : VersionConfig) (now : Int)
    (m : GameVersionManifest) (fp : String) (sz : Nat) (h : String)
    (md : List (String × String)) (desc : Option String)
    (h0 : lookupFile m.files fp = none) :
    lookupFile (add_version cfg now m fp sz h md desc).1.files fp =
      some (cleanup_old_versions cfg now ({ file_path := fp, versions := [(add_version cfg now m fp sz h md desc).2], current_version := some (add_version cfg now m fp sz h md desc).2.version_id, max_versions := some cfg.max_versions_per_file })) := by
  simp only [add_version, h0, Option.getD_none]
  exact lookupFile_updateFile_self _ _ _

theorem add_version_version_id (cfg : VersionConfig) (now : Int)
    (m : GameVersionManifest) (fp : String) (sz : Nat) (h : String)
    (md : List (String × String)) (desc : Option String) :
    (add_version cfg now m fp sz h md desc).2.version_id =
      generate_version_id (utcOfInstant now) h := by
  simp [add_version]

theorem divNsLe2 (n : Nat) : n / 1000000000 ≤ 2 ↔ n < 3000000000 := by
  rw [← Nat.lt_succ_iff]
  rw [Nat.div_lt_iff_lt_mul (by norm_num)]

/-! ## Claim theorems -/

/-- C10: the versions retained by the cleanup run after `add_version` do
not depend on `keep_pinned_versions` — pinned versions are kept
unconditionally, so cleanup (and therefore the whole of `add_version`)
yields identical manifests under any two settings of the flag. -/
theorem c10_keep_pinned_flag_irrelevant :
    ∀ (cfg : VersionConfig) (now : Int) (fm : FileVersionManifest)
      (m : GameVersionManifest) (fp : String) (sz : Nat) (h : String)
      (md : List (String × String)) (desc : Option String) (b₁ b₂ : Bool),
    cleanup_old_versions { cfg with keep_pinned_versions := b₁ } now fm =
      cleanup_old_versions { cfg with keep_pinned_versions := b₂ } now fm ∧
    add_version { cfg with keep_pinned_versions := b₁ } now m fp sz h md desc =
      add_version { cfg with keep_pinned_versions := b₂ } now m fp sz h md desc := by
  intro cfg now fm m fp sz h md desc b₁ b₂
  have hcl : ∀ (b₁ b₂ : Bool) (now : Int) (fm : FileVersionManifest),
      cleanup_old_versions { cfg with keep_pinned_versions := b₁ } now fm =
      cleanup_old_versions { cfg with keep_pinned_versions := b₂ } now fm := by
    intro b₁ b₂ now fm
    simp [cleanup_old_versions, cleanupPartition_eq]
  have hap : ∀ b : Bool,
      should_auto_pin { cfg with keep_pinned_versions := b } m fp sz now =
      should_auto_pin cfg m fp sz now := by
    intro b
    rcases hstrat : cfg.auto_pin_strategy <;>
      simp [should_auto_pin, hstrat]
  refine ⟨hcl b₁ b₂ now fm, ?_⟩
  simp only [add_version, hap, hcl b₁ b₂]

/-- C6 counterexample: at 2024-01-02 03:04:05.123456789 the generated
version id renders the sub-second part as 9-digit nanoseconds
(chrono `%f`), not as the 6-digit microseconds the claim states. -/
theorem c6_version_id_counterexample :
    generate_version_id ⟨2024, 1, 2, 3, 4, 5, 123456789⟩ "abcdef0123456789" =
      "20240102_030405_123456789_abcdef01" ∧
    spec_version_id_micros ⟨2024, 1, 2, 3, 4, 5, 123456789⟩ "abcdef0123456789" =
      "20240102_030405_123456_abcdef01" ∧
    generate_version_id ⟨2024, 1, 2, 3, 4, 5, 123456789⟩ "abcdef0123456789" ≠
      spec_version_id_micros ⟨2024, 1, 2, 3, 4, 5, 123456789⟩ "abcdef0123456789" := by
  refine ⟨by decide, by decide, by decide⟩

/-- C6 amended: for every timestamp and hash the version id is exactly
`<YYYYMMDD>_<HHMMSS>_<9-digit nanoseconds>_<hash[0..8]>`, reproducible
from `(timestamp, hash)` alone. -/
theorem c6_version_id_nanos (ts : UtcTimestamp) (hash : String) :
    generate_version_id ts hash = spec_version_id_nanos ts hash := rfl

/-- C9 counterexample: local and remote records 2.5 s apart with equal
sizes.  The claim (`Δ ≤ 2 s` ties, otherwise newer side wins) demands a
download of the newer remote file, but `as_secs` truncation makes the
code treat 2.5 s as a tie and do nothing. -/
theorem c9_tie_window_counterexample :
    determine_sync_action ⟨"save.dat", 0, 7, none⟩
        (some ⟨"save.dat", 2500000000, 7, none⟩) = SyncAction.NoAction ∧
    spec_determine_sync_action ⟨"save.dat", 0, 7, none⟩
        (some ⟨"save.dat", 2500000000, 7, none⟩) = SyncAction.DownloadFromS3 ∧
    determine_sync_action ⟨"save.dat", 0, 7, none⟩
        (some ⟨"save.dat", 2500000000, 7, none⟩) ≠
      spec_determine_sync_action ⟨"save.dat", 0, 7, none⟩
        (some ⟨"save.dat", 2500000000, 7, none⟩) := by
  refine ⟨by decide, by decide, by decide⟩

/-- C9 amended: with `Δ = |t_local - t_remote|` in nanoseconds, the tie
window is `Δ < 3 s` (the whole-second truncation of `Δ` being ≤ 2), not
`Δ ≤ 2 s`; within it differing sizes upload and equal sizes do nothing,
beyond it the newer side wins, and a missing remote record uploads. -/
theorem c9_truncated_tie_window :
    ∀ l c : FileInfo,
    (determine_sync_action l none = SyncAction.UploadToS3) ∧
    (max l.modified_time c.modified_time -
        min l.modified_time c.modified_time < 3000000000 →
      l.size ≠ c.size → determine_sync_action l (some c) = SyncAction.UploadToS3) ∧
    (max l.modified_time c.modified_time -
        min l.modified_time c.modified_time < 3000000000 →
      l.size = c.size → determine_sync_action l (some c) = SyncAction.NoAction) ∧
    (3000000000 ≤ max l.modified_time c.modified_time -
        min l.modified_time c.modified_time →
      c.modified_time < l.modified_time →
      determine_sync_action l (some c) = SyncAction.UploadToS3) ∧
    (3000000000 ≤ max l.modified_time c.modified_time -
        min l.modified_time c.modified_time →
      l.modified_time < c.modified_time →
      determine_sync_action l (some c) = SyncAction.DownloadFromS3) := by
  intro l c
  have hd : (if c.modified_time < l.modified_time then
        l.modified_time - c.modified_time
      else c.modified_time - l.modified_time) =
      max l.modified_time c.modified_time -
        min l.modified_time c.modified_time := by
    rcases Nat.lt_or_ge c.modified_time l.modified_time with hlt | hge
    · rw [if_pos hlt]
      omega
    · rw [if_neg (Nat.not_lt.mpr hge)]
      omega
  refine ⟨rfl, ?_, ?_, ?_, ?_⟩
  · intro h1 h2
    simp only [determine_sync_action, hd]
    rw [if_pos ((divNsLe2 _).mpr h1), if_pos h2]
  · intro h1 h2
    simp only [determine_sync_action, hd]
    rw [if_pos ((divNsLe2 _).mpr h1), if_neg (by simpa using h2)]
  · intro h1 h2
    have hn : ¬ (max l.modified_time c.modified_time -
        min l.modified_time c.modified_time) / 1000000000 ≤ 2 :=
      fun hc => absurd ((divNsLe2 _).mp hc) (by omega)
    simp only [determine_sync_action, hd]
    rw [if_neg hn, if_pos h2]
  · intro h1 h2
    have hn : ¬ (max l.modified_time c.modified_time -
        min l.modified_time c.modified_time) / 1000000000 ≤ 2 :=
      fun hc => absurd ((divNsLe2 _).mp hc) (by omega)
    simp only [determine_sync_action, hd]
    rw [if_neg hn, if_neg (by omega), if_pos h2]

/-- C9 witness: a remote record 5 s older than the local one with equal
sizes is uploaded (the newer local side wins outside the tie window). -/
theorem c9_truncated_tie_window_witness :
    determine_sync_action ⟨"a", 5000000000, 3, none⟩
      (some ⟨"b", 0, 3, none⟩) = SyncAction.UploadToS3 :=
  (c9_truncated_tie_window ⟨"a", 5000000000, 3, none⟩ ⟨"b", 0, 3, none⟩).2.2.2.1
    (by decide) (by decide)

/-- C8 counterexample: with the manifest object present but the
`GetObject` request failing at the transport level, the S3 backend
reports `Ok(None)` — "no manifest" — instead of surfacing the error as
the claim states. -/
theorem c8_s3_transport_error_counterexample :
    s3_download_manifest ⟨some [1, 2, 3], true, false⟩
        (fun _ => .error "unused") = .ok none ∧
    (S3Env.mk (some [1, 2, 3]) true false).manifestObject.isSome = true := by
  exact ⟨rfl, rfl⟩

/-- C8 amended: the local backend returns `None` exactly when no manifest
file exists and surfaces read errors on an existing file; the S3 backend
maps every failed `GetObject` request — transport failures included — to
`None`, and only surfaces errors that occur while reading the body of an
existing manifest (parse errors propagate on both backends). -/
theorem c8_download_manifest_behavior :
    ∀ (envL : LocalEnv) (envS : S3Env)
      (parse : List Nat → Except String GameVersionManifest),
    (envL.manifestFile = none →
      local_download_manifest envL parse = .ok none) ∧
    (local_download_manifest envL parse = .ok none →
      envL.manifestFile = none) ∧
    (∀ data, envL.manifestFile = some data → envL.readFailure = true →
      local_download_manifest envL parse = .error "io error") ∧
    (envS.transportFailure = true →
      s3_download_manifest envS parse = .ok none) ∧
    (envS.manifestObject = none →
      s3_download_manifest envS parse = .ok none) ∧
    (∀ data, envS.manifestObject = some data → envS.transportFailure = false →
      envS.bodyReadFailure = true →
      s3_download_manifest envS parse = .error "connection reset") := by
  intro envL envS parse
  refine ⟨?_, ?_, ?_, ?_, ?_, ?_⟩
  · intro h
    simp [local_download_manifest, h]
  · intro h
    rcases hf : envL.manifestFile with _ | data
    · rfl
    · exfalso
      rw [local_download_manifest, hf] at h
      rcases hr : envL.readFailure with _ | _
      · simp only [hr, if_neg Bool.false_ne_true] at h
        rcases hp : parse data with e | man <;> simp [hp] at h
      · simp [hr] at h
  · intro data hf hr
    simp [local_download_manifest, hf, hr]
  · intro h
    simp [s3_download_manifest, s3Send, h]
  · intro h
    rcases ht : envS.transportFailure with _ | _ <;>
      simp [s3_download_manifest, s3Send, h, ht]
  · intro data hf ht hb
    simp [s3_download_manifest, s3Send, hf, ht, hb]

/-- C8 witness: a failed read of an existing local manifest surfaces as
an error, and an S3 `GetObject` on an absent key yields `None`. -/
theorem c8_download_manifest_witness :
    local_download_manifest ⟨some [7], true⟩ (fun _ => .error "x") =
      .error "io error" ∧
    s3_download_manifest ⟨none, false, false⟩ (fun _ => .error "x") =
      .ok none := by
  have h := c8_download_manifest_behavior ⟨some [7], true⟩ ⟨none, false, false⟩
    (fun _ => .error "x")
  exact ⟨h.2.2.1 [7] rfl rfl, h.2.2.2.2.1 rfl⟩

/-- C5: `download_version` fails with the integrity error whenever the
hash of the downloaded bytes differs from the manifest version's hash (so
the target file is never written with mismatching data), succeeds with
exactly the downloaded bytes only when the hashes match, and propagates
backend fetch errors.  The source takes the manifest by shared reference
(`&self`), so the manifest is unchanged in every outcome. -/
theorem c5_download_version_integrity :
    ∀ (m : GameVersionManifest) (rel vid : String)
      (hashFn : List Nat → String) (data : List Nat) (v : FileVersion),
    get_version m rel vid = some v →
    (hashFn data ≠ v.hash →
      download_version m rel vid hashFn (.ok data) =
        .error ("File integrity check failed: expected " ++ v.hash ++
          ", got " ++ hashFn data)) ∧
    (∀ out, download_version m rel vid hashFn (.ok data) = .ok out →
      hashFn data = v.hash ∧ out = data) ∧
    (∀ e, download_version m rel vid hashFn (.error e) = .error e) := by
  intro m rel vid hashFn data v hv
  refine ⟨?_, ?_, ?_⟩
  · intro hne
    simp [download_version, hv, hne]
  · intro out hout
    rw [download_version, hv] at hout
    by_cases hne : hashFn data ≠ v.hash
    · simp [hne] at hout
    · push_neg at hne
      refine ⟨hne, ?_⟩
      simp [hne] at hout
      exact hout.symm
  · intro e
    simp [download_version, hv]

/-- C5 witness: a tampered body (`hashFn` reports `"bb"` against the
manifest hash `"aa"`) makes `download_version` fail with the integrity
error, and a matching body is returned for writing. -/
theorem c5_download_version_witness :
    download_version fixHashManifest "f" "v1" (fun _ => "bb") (.ok [1]) =
      .error ("File integrity check failed: expected " ++ "aa" ++
        ", got " ++ "bb") ∧
    download_version fixHashManifest "f" "v1" (fun _ => "aa") (.ok [1]) =
      .ok [1] := by
  constructor
  · exact (c5_download_version_integrity fixHashManifest "f" "v1" (fun _ => "bb")
      [1] fixHashVersion (by rfl)).1 (by decide)
  · rfl

/-- C7: `remove_version` fails (before any mutation, so the manifest is
unchanged — every error path of the source returns before the `remove`
call) when the file is absent, when no version carries the id, or when
the first version carrying it is pinned; otherwise it removes exactly
that version and, if it was `current_version`, promotes the new head of
the list (or `none` if the list became empty). -/
theorem c7_remove_version :
    ∀ (m : GameVersionManifest) (fp vid : String),
    (lookupFile m.files fp = none →
      remove_version m fp vid = .error "File not found in manifest") ∧
    (∀ fm, lookupFile m.files fp = some fm →
      ((∀ u ∈ fm.versions, u.version_id ≠ vid) →
        remove_version m fp vid = .error "Version not found") ∧
      (∀ pre v post, fm.versions = pre ++ v :: post →
        (∀ u ∈ pre, u.version_id ≠ vid) → v.version_id = vid →
        (v.is_pinned = true →
          remove_version m fp vid = .error "Cannot remove pinned version") ∧
        (v.is_pinned = false →
          remove_version m fp vid = .ok
            ({ m with files := updateFile m.files fp ({ fm with versions := pre ++ post, current_version := if fm.current_version = some vid then (pre ++ post).head?.map (·.version_id) else fm.current_version }) }, v)))) := by
  intro m fp vid
  constructor
  · intro h
    simp [remove_version, h]
  · intro fm hfm
    constructor
    · intro hnone
      simp [remove_version, hfm, removeFirst_eq_none vid _ hnone]
    · intro pre v post hdecomp hpre hv
      have hrf : removeFirst vid fm.versions = some (v, pre ++ post) := by
        rw [hdecomp]
        exact removeFirst_of_decomp vid pre post v hpre hv
      constructor
      · intro hpin
        simp [remove_version, hfm, hrf, hpin]
      · intro hpin
        simp [remove_version, hfm, hrf, hpin, beq_iff_eq]

/-- C7 witness: removing the unpinned current version `v1` of
`fixHashManifest` succeeds and promotes the remaining head `p1` to
`current_version`; removing the pinned `p1` fails. -/
theorem c7_remove_version_witness :
    remove_version fixHashManifest "f" "p1" =
      .error "Cannot remove pinned version" ∧
    remove_version fixHashManifest "f" "v1" = .ok
      ({ fixHashManifest with files := updateFile fixHashManifest.files "f" ({ file_path := "f", versions := [fixPinnedVersion], current_version := some "p1", max_versions := some 10 }) }, fixHashVersion) := by
  constructor
  · exact (((c7_remove_version fixHashManifest "f" "p1").2
      { file_path := "f", versions := [fixHashVersion, fixPinnedVersion],
        current_version := some "v1", max_versions := some 10 } rfl).2
      [fixHashVersion] fixPinnedVersion [] rfl (by decide) rfl).1 rfl
  · have h := (((c7_remove_version fixHashManifest "f" "v1").2
      { file_path := "f", versions := [fixHashVersion, fixPinnedVersion],
        current_version := some "v1", max_versions := some 10 } rfl).2
      [] fixHashVersion [fixPinnedVersion] rfl (by decide) rfl).2 rfl
    rw [h]
    rfl

/-- C1: after `add_version` on a file, the entry holds at most
`max_versions_per_file` unpinned versions, every retained unpinned
version is younger than `max_version_age_days` (so its age is at most the
bound), no pinned version of the previous entry has been evicted, and the
retained unpinned versions are exactly the newest
`max_versions_per_file` of the age-surviving unpinned versions (as a
permutation; the final sort interleaves them with the pinned ones). -/
theorem c1_cleanup_invariant_after_add_version :
    ∀ (cfg : VersionConfig) (now : Int) (m : GameVersionManifest)
      (fp : String) (sz : Nat) (h : String) (md : List (String × String))
      (desc : Option String),
    (((lookupFile (add_version cfg now m fp sz h md desc).1.files fp).getD
        emptyFM).versions.countP (fun v => !v.is_pinned) ≤
      cfg.max_versions_per_file) ∧
    (∀ v ∈ ((lookupFile (add_version cfg now m fp sz h md desc).1.files
        fp).getD emptyFM).versions, v.is_pinned = false →
      now - v.timestamp ≤ (cfg.max_version_age_days : Int) * nsPerDay) ∧
    (∀ fm0, lookupFile m.files fp = some fm0 →
      ∀ v ∈ fm0.versions, v.is_pinned = true →
        v ∈ ((lookupFile (add_version cfg now m fp sz h md desc).1.files
          fp).getD emptyFM).versions) ∧
    (∀ fm0, lookupFile m.files fp = some fm0 →
      List.Perm
        (((lookupFile (add_version cfg now m fp sz h md desc).1.files
            fp).getD emptyFM).versions.filter (fun v => !v.is_pinned))
        (((((add_version cfg now m fp sz h md desc).2 :: fm0.versions).filter
            (fun v => !v.is_pinned && decide (now -
              (cfg.max_version_age_days : Int) * nsPerDay
                < v.timestamp))).insertionSort tsDesc).take
          cfg.max_versions_per_file)) := by
  intro cfg now m fp sz h md desc
  rcases h0 : lookupFile m.files fp with _ | fm0
  · have hlk := add_version_result_file_none cfg now m fp sz h md desc h0
    rw [hlk]
    simp only [Option.getD_some]
    refine ⟨cleanup_countP_le _ _ _, ?_, ?_, ?_⟩
    · intro v hv hp
      have := cleanup_age _ _ _ v hv hp
      omega
    · intro fm0 h0'
      exact absurd h0' (by simp)
    · intro fm0 h0'
      exact absurd h0' (by simp)
  · have hlk := add_version_result_file_some cfg now m fp sz h md desc fm0 h0
    rw [hlk]
    simp only [Option.getD_some]
    refine ⟨cleanup_countP_le _ _ _, ?_, ?_, ?_⟩
    · intro v hv hp
      have := cleanup_age _ _ _ v hv hp
      omega
    · intro fm0' h0' v hv hp
      obtain rfl : fm0 = fm0' := Option.some.inj h0'
      exact cleanup_pinned_mem _ _ _ v (List.mem_cons_of_mem _ hv) hp
    · intro fm0' h0'
      obtain rfl : fm0 = fm0' := Option.some.inj h0'
      exact cleanup_unpinned_perm cfg now _

/-- C1 witness: adding a version to `fixHashManifest` keeps the pinned
version `p1` in the file entry. -/
theorem c1_cleanup_invariant_witness :
    fixPinnedVersion ∈ ((lookupFile (add_version versionConfigDefault
      2000000000 fixHashManifest "f" 5 "cc" [] none).1.files "f").getD
        emptyFM).versions :=
  (c1_cleanup_invariant_after_add_version versionConfigDefault 2000000000
      fixHashManifest "f" 5 "cc" [] none).2.2.1
    { file_path := "f", versions := [fixHashVersion, fixPinnedVersion],
      current_version := some "v1", max_versions := some 10 } rfl
    fixPinnedVersion (by decide) rfl

/-- C3 counterexample: both input manifests have file `"f"` sorted newest
first, but the merge sorts the merged version list ascending
(`versioned_sync.rs:117`), so the newest-first ordering is not preserved
by the manifest merge. -/
theorem c3_merge_order_counterexample :
    SortedDesc (((lookupFile fixLocalManifest.files "f").getD
      emptyFM).versions) ∧
    SortedDesc (((lookupFile fixRemoteManifest.files "f").getD
      emptyFM).versions) ∧
    ¬ SortedDesc (((lookupFile (merge_manifests fixLocalManifest
        fixRemoteManifest 0).files "f").getD emptyFM).versions) := by
  refine ⟨by decide, by decide, by decide⟩

/-- C3 amended: `cleanup_old_versions` and `add_version` leave the
affected file's versions sorted by non-increasing timestamp, and
`remove_version` preserves that order; the manifest merge, however,
sorts every file present in both manifests by non-decreasing (ascending)
timestamp, so the newest-first invariant is not preserved by merge. -/
theorem c3_version_ordering :
    ∀ (cfg : VersionConfig) (now : Int) (fm : FileVersionManifest)
      (m : GameVersionManifest) (fp vid : String) (sz : Nat) (h : String)
      (md : List (String × String)) (desc : Option String)
      (l r : GameVersionManifest),
    SortedDesc (cleanup_old_versions cfg now fm).versions ∧
    SortedDesc (((lookupFile (add_version cfg now m fp sz h md desc).1.files
        fp).getD emptyFM).versions) ∧
    (∀ fm0 m' v, lookupFile m.files fp = some fm0 →
      SortedDesc fm0.versions →
      remove_version m fp vid = .ok (m', v) →
      SortedDesc (((lookupFile m'.files fp).getD emptyFM).versions)) ∧
    ((r.files.map Prod.fst).Nodup →
      ∀ lfi rfi, lookupFile l.files fp = some lfi →
        lookupFile r.files fp = some rfi →
        SortedAsc (((lookupFile (merge_manifests l r now).files fp).getD
          emptyFM).versions)) := by
  intro cfg now fm m fp vid sz h md desc l r
  refine ⟨?_, ?_, ?_, ?_⟩
  · rw [cleanup_versions_eq]
    exact sortedDesc_insertionSort _
  · rcases h0 : lookupFile m.files fp with _ | fm0
    · rw [add_version_result_file_none cfg now m fp sz h md desc h0]
      simp only [Option.getD_some]
      rw [cleanup_versions_eq]
      exact sortedDesc_insertionSort _
    · rw [add_version_result_file_some cfg now m fp sz h md desc fm0 h0]
      simp only [Option.getD_some]
      rw [cleanup_versions_eq]
      exact sortedDesc_insertionSort _
  · intro fm0 m' v h0 hsorted hok
    simp only [remove_version, h0] at hok
    rcases hrf : removeFirst vid fm0.versions with _ | ⟨v0, vs'⟩
    · rw [hrf] at hok
      simp at hok
    · simp only [hrf] at hok
      split at hok
    
      · simp at hok
      · have hpair := Except.ok.inj hok
        rw [Prod.mk.injEq] at hpair
        obtain ⟨hm', hv'⟩ := hpair
        subst hm'
        have hfiles : lookupFile ({ m with files := updateFile m.files fp ({ fm0 with versions := vs', current_version := if fm0.current_version == some vid then vs'.head?.map (fun x => x.version_id) else fm0.current_version }) } : GameVersionManifest).files fp = some ({ fm0 with versions := vs', current_version := if fm0.current_version == some vid then vs'.head?.map (fun x => x.version_id) else fm0.current_version }) :=
          lookupFile_updateFile_self _ _ _
        rw [hfiles]
        simp only [Option.getD_some]
        show SortedDesc vs'
        obtain ⟨pre, post, hdec, hrem, _, _⟩ :=
          removeFirst_some_decomp vid fm0.versions v0 vs' hrf
        rw [hrem]
        have hsub : List.Sublist (pre ++ post) (pre ++ v0 :: post) :=
          List.Sublist.append_left (List.sublist_cons_self v0 post) pre
        rw [hdec] at hsorted
        exact hsorted.sublist hsub
  · intro hnd lfi rfi hlf hrf
    simp only [merge_manifests]
    rw [mergeFilesLoop_lookup _ _ _ hnd, hlf, hrf]
    simp only [Option.getD_some]
    show SortedAsc (mergeFileInfo lfi rfi).versions
    simp only [mergeFileInfo]
    exact sortedAsc_insertionSort _

/-- C3 witness: the merged fixture file is sorted ascending, and removing
`v1` from `fixHashManifest` leaves the entry sorted newest first. -/
theorem c3_version_ordering_witness :
    SortedAsc (((lookupFile (merge_manifests fixLocalManifest
      fixRemoteManifest 0).files "f").getD emptyFM).versions) ∧
    SortedDesc (((lookupFile ({ fixHashManifest with files := updateFile fixHashManifest.files "f" ({ file_path := "f", versions := [fixPinnedVersion], current_version := some "p1", max_versions := some 10 }) } : GameVersionManifest).files "f").getD emptyFM).versions) := by
  constructor
  · exact (c3_version_ordering versionConfigDefault 0 emptyFM fixHashManifest
      "f" "v1" 0 "" [] none fixLocalManifest fixRemoteManifest).2.2.2
      (by decide)
      { file_path := "f",
        versions := [mkVersion "v2" 2000000000 false,
                     mkVersion "v1" 1000000000 false],
        current_version := some "v2", max_versions := some 10 }
      { file_path := "f",
        versions := [mkVersion "v3" 3000000000 false,
                     mkVersion "v1" 1000000000 false],
        current_version := some "v3", max_versions := some 10 }
      rfl rfl
  · exact (c3_version_ordering versionConfigDefault 0 emptyFM fixHashManifest
      "f" "v1" 0 "" [] none fixLocalManifest fixRemoteManifest).2.2.1
      { file_path := "f", versions := [fixHashVersion, fixPinnedVersion],
        current_version := some "v1", max_versions := some 10 }
      _ fixHashVersion rfl (by decide) rfl

/-- C4 counterexample: the local file's hash equals the hash of the
manifest's `current_version`, yet the sync is not a no-op — a third
version is created, the body upload and the manifest republish both
happen, and the manifest changes. -/
theorem c4_no_hash_short_circuit_counterexample :
    (get_current_version fixHashManifest "f").map (fun v => v.hash) =
      some "aa" ∧
    (sync_file_to_storage versionConfigDefault 2000000000 fixHashManifest "f"
        (some (5, "aa")) (some "Auto-sync") true true).2 = .ok (true, true) ∧
    ((lookupFile (sync_file_to_storage versionConfigDefault 2000000000
        fixHashManifest "f" (some (5, "aa")) (some "Auto-sync") true
        true).1.files "f").getD emptyFM).versions.length = 3 ∧
    (sync_file_to_storage versionConfigDefault 2000000000 fixHashManifest "f"
        (some (5, "aa")) (some "Auto-sync") true true).1 ≠ fixHashManifest := by
  refine ⟨by decide, rfl, by decide, by decide⟩

/-- C4 amended: even when the local content hash equals the hash of the
manifest's current version, `sync_file_to_storage_with_progress`
unconditionally creates a new version (which becomes `current_version`),
uploads the body, and republishes the manifest (reporting the backend's
outcome); there is no equal-hash no-op short circuit. -/
theorem c4_sync_always_creates_version :
    ∀ (cfg : VersionConfig) (now : Int) (m : GameVersionManifest)
      (rel : String) (sz : Nat) (desc : Option String) (mok : Bool)
      (h : String) (cur : FileVersion),
    get_current_version m rel = some cur → cur.hash = h →
    (sync_file_to_storage cfg now m rel (some (sz, h)) desc true mok).2 =
      .ok (true, mok) ∧
    ((lookupFile (sync_file_to_storage cfg now m rel (some (sz, h)) desc true
        mok).1.files rel).getD emptyFM).current_version =
      some (generate_version_id (utcOfInstant now) h) := by
  intro cfg now m rel sz desc mok h cur hcur _hhash
  constructor
  · simp [sync_file_to_storage]
  · have hsync : (sync_file_to_storage cfg now m rel (some (sz, h)) desc true
        mok).1 = (add_version cfg now m rel sz h [] desc).1 := by
      simp [sync_file_to_storage]
    rw [hsync]
    rcases h0 : lookupFile m.files rel with _ | fm0
    · rw [get_current_version, h0] at hcur
      simp at hcur
    · rw [add_version_result_file_some cfg now m rel sz h [] desc fm0 h0]
      simp only [Option.getD_some]
      rw [(cleanup_fields _ _ _).2.1]
      rw [add_version_version_id]

/-- C4 witness: the amended behaviour at the counterexample input — the
result is reported and the freshly generated version id is current. -/
theorem c4_sync_always_creates_version_witness :
    (sync_file_to_storage versionConfigDefault 2000000000 fixHashManifest "f"
        (some (5, "aa")) (some "Auto-sync") true true).2 = .ok (true, true) ∧
    ((lookupFile (sync_file_to_storage versionConfigDefault 2000000000
        fixHashManifest "f" (some (5, "aa")) (some "Auto-sync") true
        true).1.files "f").getD emptyFM).current_version =
      some (generate_version_id (utcOfInstant 2000000000) "aa") :=
  c4_sync_always_creates_version versionConfigDefault 2000000000
    fixHashManifest "f" 5 (some "Auto-sync") true "aa" fixHashVersion rfl rfl

/-- C2: merging remote `R` into local `L` gives, for each file present in
both, exactly `mergeFileInfo`: the union of the version lists keyed by
`version_id` (membership of ids is the union, every merged version comes
from one side, and id-uniqueness is preserved), with `current_version`
resolved as: both sides name a resolvable current → the strictly newer
one wins (ties keep local); only one side names one → it is kept;
neither → the newest version becomes current.  Files only in `L` are
retained untouched and files only in `R` are adopted verbatim.  The
hypotheses are the `HashMap` key uniqueness of the remote `files` map and
(where the resolution rule needs it) that the named current ids resolve
in the merged list, which the manifest invariant guarantees. -/
theorem c2_merge_manifests :
    ∀ (l r : GameVersionManifest) (now : Int) (fp : String),
    (r.files.map Prod.fst).Nodup →
    (∀ lfi rfi, lookupFile l.files fp = some lfi →
      lookupFile r.files fp = some rfi →
      lookupFile (merge_manifests l r now).files fp =
        some (mergeFileInfo lfi rfi) ∧
      (∀ i, i ∈ (mergeFileInfo lfi rfi).versions.map (fun v => v.version_id) ↔
        i ∈ lfi.versions.map (fun v => v.version_id) ∨
          i ∈ rfi.versions.map (fun v => v.version_id)) ∧
      (∀ v ∈ (mergeFileInfo lfi rfi).versions,
        v ∈ lfi.versions ∨ v ∈ rfi.versions) ∧
      ((lfi.versions.map (fun v => v.version_id)).Nodup →
        ((mergeFileInfo lfi rfi).versions.map (fun v => v.version_id)).Nodup) ∧
      (∀ lcid rcid lc rc, lfi.current_version = some lcid →
        rfi.current_version = some rcid →
        (mergeFileInfo lfi rfi).versions.find?
          (fun v => v.version_id == lcid) = some lc →
        (mergeFileInfo lfi rfi).versions.find?
          (fun v => v.version_id == rcid) = some rc →
        (mergeFileInfo lfi rfi).current_version =
          some (if lc.timestamp < rc.timestamp then rcid else lcid)) ∧
      (∀ rcid rc, lfi.current_version = none →
        rfi.current_version = some rcid →
        (mergeFileInfo lfi rfi).versions.find?
          (fun v => v.version_id == rcid) = some rc →
        (mergeFileInfo lfi rfi).current_version = some rcid) ∧
      (∀ lcid, lfi.current_version = some lcid →
        rfi.current_version = none →
        (∃ lc, (mergeFileInfo lfi rfi).versions.find?
          (fun v => v.version_id == lcid) = some lc) →
        (mergeFileInfo lfi rfi).current_version = some lcid) ∧
      (lfi.current_version = none → rfi.current_version = none →
        (mergeFileInfo lfi rfi).versions ≠ [] →
        ∃ v, v ∈ (mergeFileInfo lfi rfi).versions ∧
          (mergeFileInfo lfi rfi).current_version = some v.version_id ∧
          ∀ u ∈ (mergeFileInfo lfi rfi).versions,
            u.timestamp ≤ v.timestamp)) ∧
    (lookupFile r.files fp = none →
      lookupFile (merge_manifests l r now).files fp = lookupFile l.files fp) ∧
    (∀ rfi, lookupFile l.files fp = none → lookupFile r.files fp = some rfi →
      lookupFile (merge_manifests l r now).files fp = some rfi) := by
  intro l r now fp hnd
  have hloop := mergeFilesLoop_lookup r.files l.files fp hnd
  refine ⟨?_, ?_, ?_⟩
  · intro lfi rfi hlf hrf
    have hmerged : lookupFile (merge_manifests l r now).files fp =
        some (mergeFileInfo lfi rfi) := by
      simp only [merge_manifests]
      rw [hloop, hlf, hrf]
    have hV : (mergeFileInfo lfi rfi).versions =
        (mergeFileVersions lfi.versions rfi.versions).insertionSort tsAsc := rfl
    have hidperm := (List.perm_insertionSort tsAsc
      (mergeFileVersions lfi.versions rfi.versions)).map
        (fun v : FileVersion => v.version_id)
    refine ⟨hmerged, ?_, ?_, ?_, ?_, ?_, ?_, ?_⟩
    · intro i
      rw [hV, hidperm.mem_iff]
      exact mergeFileVersions_mem_ids _ _ i
    · intro v hv
      rw [hV, List.mem_insertionSort] at hv
      exact mergeFileVersions_mem _ _ v hv
    · intro hndl
      rw [hV]
      exact hidperm.nodup_iff.mpr (mergeFileVersions_nodup_ids _ _ hndl)
    · intro lcid rcid lc rc hlc hrc hflc hfrc
      have hrcid : rc.version_id = rcid := by
        have := List.find?_some hfrc
        rwa [beq_iff_eq] at this
      rw [hV] at hflc hfrc
      show (mergeFileInfo lfi rfi).current_version = _
      simp only [mergeFileInfo, hlc, hrc, Option.some_bind, hflc, hfrc]
      by_cases hts : lc.timestamp < rc.timestamp
      · rw [if_pos hts, if_pos hts, hrcid]
      · rw [if_neg hts, if_neg hts]
    · intro rcid rc hlc hrc hfrc
      have hrcid : rc.version_id = rcid := by
        have := List.find?_some hfrc
        rwa [beq_iff_eq] at this
      rw [hV] at hfrc
      show (mergeFileInfo lfi rfi).current_version = _
      simp only [mergeFileInfo, hlc, hrc, Option.some_bind, Option.none_bind,
        hfrc]
      rw [hrcid]
    · intro lcid hlc hrc hex
      obtain ⟨lc, hflc⟩ := hex
      rw [hV] at hflc
      show (mergeFileInfo lfi rfi).current_version = _
      simp only [mergeFileInfo, hlc, hrc, Option.some_bind, Option.none_bind,
        hflc]
    · intro hlc hrc hne
      rw [hV] at hne
      rcases hgl : ((mergeFileVersions lfi.versions
          rfi.versions).insertionSort tsAsc).getLast? with _ | last
      · rw [List.getLast?_eq_none_iff] at hgl
        exact absurd hgl hne
      · refine ⟨last, ?_, ?_, ?_⟩
        · rw [hV]
          exact List.mem_of_getLast?_eq_some hgl
        · show (mergeFileInfo lfi rfi).current_version = _
          simp only [mergeFileInfo, hlc, hrc, Option.none_bind, hgl]
        · intro u hu
          rw [hV] at hu
          exact sortedAsc_getLast_max _ (sortedAsc_insertionSort _) last hgl
            u hu
  · intro hnone
    simp only [merge_manifests]
    rw [hloop, hnone]
  · intro rfi hlnone hrsome
    simp only [merge_manifests]
    rw [hloop, hrsome, hlnone]

/-- C2 witness: on the fixtures, file `"f"` (present in both) merges to
`mergeFileInfo` of the two entries with `current_version = v3` (the
remote current is newer), and the remote-only file `"g"` is adopted
verbatim. -/
theorem c2_merge_manifests_witness :
    lookupFile (merge_manifests fixLocalManifest fixRemoteManifest 7).files
      "f" = some (mergeFileInfo fixLocalEntry fixRemoteEntry) ∧
    (mergeFileInfo fixLocalEntry fixRemoteEntry).current_version =
      some "v3" ∧
    lookupFile (merge_manifests fixLocalManifest fixRemoteManifest 7).files
      "g" = some fixRemoteOnlyEntry := by
  have h := c2_merge_manifests fixLocalManifest fixRemoteManifest 7 "f"
    (by decide)
  have hg := c2_merge_manifests fixLocalManifest fixRemoteManifest 7 "g"
    (by decide)
  refine ⟨(h.1 fixLocalEntry fixRemoteEntry rfl rfl).1, ?_,
    hg.2.2 fixRemoteOnlyEntry rfl rfl⟩
  have hc := (h.1 fixLocalEntry fixRemoteEntry rfl rfl).2.2.2.2.1 "v2" "v3"
    (mkVersion "v2" 2000000000 false) (mkVersion "v3" 3000000000 false)
    rfl rfl (by decide) (by decide)
  rw [if_pos (by decide)] at hc
  exact hc

end DeckSaves
